import Mathlib

/-!
Shallow embedding of `src/api/eth.js` (module `api/eth`) from the
eth-json-rpc repository, together with proofs about the batched
block/log fetch-and-merge logic (`getBlocks`, `getBlocksFromArray`),
the request batches they build, and the hex guard of `call`.

Modelling conventions:
* JS numbers appearing as block numbers are modelled as `Int`
  (all uses are integer arithmetic; `toBlock - 1` may be negative).
* `parseInt(s, 16)` is modelled by `parseInt16 : String → Option Int`,
  `none` standing for `NaN`.
* The RPC transport is a function from the submitted batch of requests
  to the list of JSON-RPC results.  A JSON result is either a block
  object or a list of logs (`RpcResult`); reading a result with the
  wrong shape is modelled as a `typeError` failure, standing in for the
  `TypeError`/`NaN` propagation untyped JS would produce.
* A thrown JS value rejects the promise; this is modelled by
  `Except EthError`.
-/

namespace EthRpc

/-- Value of a single hexadecimal digit, upper or lower case. -/
def hexDigit (c : Char) : Option Nat :=
  if '0' ≤ c ∧ c ≤ '9' then some (c.toNat - '0'.toNat)
  else if 'a' ≤ c ∧ c ≤ 'f' then some (c.toNat - 'a'.toNat + 10)
  else if 'A' ≤ c ∧ c ≤ 'F' then some (c.toNat - 'A'.toNat + 10)
  else none

/-- Greedy parse of a run of hexadecimal digits, as JS `parseInt` does:
stop at the first non-digit; the accumulator is `none` while no digit
has been consumed (which yields `NaN`). -/
def takeHexVal : List Char → Option Nat → Option Nat
  | [], acc => acc
  | c :: cs, acc =>
    match hexDigit c with
    | some d => takeHexVal cs (some (acc.getD 0 * 16 + d))
    | none => acc

/-- Strip a leading `0x` / `0X` marker, as JS `parseInt` with radix 16 does. -/
def stripHexMark : List Char → List Char
  | '0' :: 'x' :: cs => cs
  | '0' :: 'X' :: cs => cs
  | cs => cs

/-- Model of the source's `parseInt16` (`parseInt(int, 16)`): skip leading
whitespace, optional sign, optional `0x` marker, then a greedy run of hex
digits; `none` models `NaN`. -/
def parseInt16 (s : String) : Option Int :=
  let cs := s.data.dropWhile (fun c => c.isWhitespace)
  match cs with
  | '-' :: rest => (takeHexVal (stripHexMark rest) none).map (fun n => -(n : Int))
  | '+' :: rest => (takeHexVal (stripHexMark rest) none).map (fun n => (n : Int))
  | _ => (takeHexVal (stripHexMark cs) none).map (fun n => (n : Int))

/-- JS `n.toString(16)` for a non-negative number: lowercase hex digits. -/
def natToHex (n : Nat) : String :=
  String.mk (Nat.toDigits 16 n)

/-- JS `i.toString(16)` on an integer: a leading minus sign for negatives. -/
def intToHex (i : Int) : String :=
  if i < 0 then "-" ++ natToHex i.natAbs else natToHex i.toNat

/-- Options object built by the source's `formatLogOptions`. -/
structure LogOptions where
  fromBlock : String
  toBlock : String
deriving DecidableEq

/-- Model of `formatLogOptions(fromBlock, toBlock)`. -/
def formatLogOptions (fromBlock toBlock : Int) : LogOptions :=
  { fromBlock := "0x" ++ intToHex fromBlock, toBlock := "0x" ++ intToHex toBlock }

/-- A JSON-RPC request as placed into a batch by `getBlocks` /
`getBlocksFromArray`: either
`client.request('eth_getBlockByNumber', [hex, fullTransactions], undefined, false)` or
`client.request('eth_getLogs', [options], undefined, false)`. -/
inductive Request where
  | getBlockByNumber (blockNumber : String) (fullTransactions : Bool)
  | getLogs (options : LogOptions)
deriving DecidableEq

/-- A log entry as returned by the transport: the two fields the code
reads (`blockNumber`, `blockHash`) plus its remaining opaque fields. -/
structure Log where
  blockNumber : String
  blockHash : String
  rest : List (String × String)
deriving DecidableEq

/-- A block object as returned by the transport: the fields the code
reads or rewrites (`number`, `timestamp` hex strings, `hash`) plus its
remaining opaque fields. -/
structure RawBlock where
  number : String
  timestamp : String
  hash : String
  rest : List (String × String)
deriving DecidableEq

/-- A block object as returned to the caller: `number` and `timestamp`
normalized (`none` models `NaN`), `logs` possibly absent (`none` models
a missing `logs` property), all other fields passed through. -/
structure Block where
  number : Option Int
  timestamp : Option Int
  hash : String
  logs : Option (List Log)
  rest : List (String × String)
deriving DecidableEq

/-- The `result` field of one response in the batch answer. -/
inductive RpcResult where
  | block (b : RawBlock)
  | logs (ls : List Log)
deriving DecidableEq

/-- Failures: `typeError` models a JS `TypeError` (property access on
`undefined`, or a result of the wrong shape); `hashMismatch` models the
thrown string of the consistency check; `inputError` the thrown string
of the hex guard in `call`. -/
inductive EthError where
  | typeError
  | hashMismatch (logHash blockHash : String)
  | inputError (got : String)
deriving DecidableEq

/-- A transport answers a submitted batch with an ordered list of results. -/
def Transport : Type := List Request → List RpcResult

/-- The batch built by `getBlocks(fromBlock, toBlock)`: one
`eth_getBlockByNumber` request per `i` in `[fromBlock, toBlock)` (the
JS `for (let i = fromBlock; i < toBlock; i++)` loop), then a single
`eth_getLogs` request with `formatLogOptions(fromBlock, toBlock - 1)`. -/
def getBlocksBatch (fromBlock toBlock : Int) : List Request :=
  (List.range (toBlock - fromBlock).toNat).map
    (fun (k : Nat) => Request.getBlockByNumber ("0x" ++ intToHex (fromBlock + (k : Int))) true)
  ++ [Request.getLogs (formatLogOptions fromBlock (toBlock - 1))]

/-- The batch built by `getBlocksFromArray(blockNumbers)`: for each
block number, a block request followed by a logs request scoped to that
single number. -/
def getBlocksFromArrayBatch (blockNumbers : List Int) : List Request :=
  (blockNumbers.map (fun bn =>
    [Request.getBlockByNumber ("0x" ++ intToHex bn) true,
     Request.getLogs (formatLogOptions bn bn)])).flatten

/-- Normalization applied to each block response in `getBlocks`
(`Object.assign(block, { number: parseInt16(...), timestamp: parseInt16(...) })`):
`number` and `timestamp` are parsed, everything else is kept, `logs` is
initially absent. -/
def normalizeBlock (b : RawBlock) : Block :=
  { number := parseInt16 b.number, timestamp := parseInt16 b.timestamp,
    hash := b.hash, logs := none, rest := b.rest }

/-- Reads a response's `result` as a block object
(`responses.slice(0, -1).map(res => res.result)`). -/
def toRawBlock : RpcResult → Except EthError RawBlock
  | RpcResult.block b => Except.ok b
  | RpcResult.logs _ => Except.error EthError.typeError

/-- Reads a response's `result` as a list of logs
(`responses[responses.length-1].result`, then `logs.forEach`). -/
def toLogs : RpcResult → Except EthError (List Log)
  | RpcResult.logs ls => Except.ok ls
  | RpcResult.block _ => Except.error EthError.typeError

/-- Decode every response of the block segment of the batch answer. -/
def decodeRawBlocks : List RpcResult → Except EthError (List RawBlock)
  | [] => Except.ok []
  | r :: rs => do
      let b ← toRawBlock r
      let bs ← decodeRawBlocks rs
      Except.ok (b :: bs)

/-- One iteration of the `logs.forEach(log => ...)` body of `getBlocks`:
compute `index = parseInt16(log.blockNumber) - fromBlock`, look up
`blocks[index]` (a missing block makes `block.hash` throw a
`TypeError`), throw on a hash mismatch, otherwise push the log onto the
block's `logs` (creating the array if absent). -/
def applyLog (fromBlock : Int) (blocks : List Block) (log : Log) :
    Except EthError (List Block) :=
  match parseInt16 log.blockNumber with
  | none => Except.error EthError.typeError
  | some n =>
      if n - fromBlock < 0 then Except.error EthError.typeError
      else
        match blocks[(n - fromBlock).toNat]? with
        | none => Except.error EthError.typeError
        | some block =>
            if log.blockHash ≠ block.hash then
              Except.error (EthError.hashMismatch log.blockHash block.hash)
            else
              Except.ok (blocks.set (n - fromBlock).toNat
                { block with logs := some (block.logs.getD [] ++ [log]) })

/-- The whole `logs.forEach` loop of `getBlocks`, left to right. -/
def mergeLogs (fromBlock : Int) (blocks : List Block) :
    List Log → Except EthError (List Block)
  | [] => Except.ok blocks
  | log :: rest => do
      let blocks' ← applyLog fromBlock blocks log
      mergeLogs fromBlock blocks' rest

/-- Response processing of `getBlocks`: all but the last response are
blocks, the last is the logs list, then logs are merged into the blocks. -/
def processResponses (fromBlock : Int) (responses : List RpcResult) :
    Except EthError (List Block) := do
  let raws ← decodeRawBlocks responses.dropLast
  let blocks := raws.map normalizeBlock
  match responses.getLast? with
  | none => Except.error EthError.typeError
  | some r => do
      let logs ← toLogs r
      mergeLogs fromBlock blocks logs

/-- Model of `Eth.prototype.getBlocks(fromBlock, toBlock)`: submit the
batch to the transport and process the ordered responses. -/
def getBlocks (fromBlock toBlock : Int) (transport : Transport) :
    Except EthError (List Block) :=
  processResponses fromBlock (transport (getBlocksBatch fromBlock toBlock))

/-- The pair-consuming loop of `getBlocksFromArray`
(`for (let i = 0; i < responses.length - 1; i += 2)`): response `2k` is
a block, response `2k+1` its logs, assigned wholesale; a trailing
unpaired response is never read. -/
def consumePairs : List RpcResult → Except EthError (List Block)
  | r1 :: r2 :: rest => do
      let b ← toRawBlock r1
      let ls ← toLogs r2
      let blocks ← consumePairs rest
      Except.ok ({ number := parseInt16 b.number, timestamp := parseInt16 b.timestamp,
                   hash := b.hash, logs := some ls, rest := b.rest } :: blocks)
  | _ => Except.ok []

/-- Model of `Eth.prototype.getBlocksFromArray(blockNumbers)`. -/
def getBlocksFromArray (blockNumbers : List Int) (transport : Transport) :
    Except EthError (List Block) :=
  consumePairs (transport (getBlocksFromArrayBatch blockNumbers))

/-- Modelled from the spec: `utils.isHex` comes from `src/lib/helpers`,
which is not part of the sources; per the spec's Hex Codec interface and
glossary, a hex-encoded integer is a `0x`-prefixed hexadecimal string,
and decoding fails on non-hex input. -/
def isHex (s : String) : Bool :=
  match s.data with
  | '0' :: 'x' :: rest => rest ≠ [] && rest.all (fun c => (hexDigit c).isSome)
  | _ => false

/-- The single RPC request issued by a successful `call`:
`this.rpc('eth_call', [{to: to, data: data}, blockNumber])`. -/
structure EthCallRequest where
  toAddress : String
  data : String
  blockNumber : String
deriving DecidableEq

/-- Model of `Eth.prototype.call`: the hex guard runs first and throws
before any request is built; `encodeTxData` (external helper, not in
the sources) is passed in as a parameter. -/
def call (encodeTxData : String → List String → String)
    (methodSignature toAddress : String) (args : List String) (blockNumber : String) :
    Except EthError EthCallRequest :=
  if blockNumber != "latest" && !(isHex blockNumber) then
    Except.error (EthError.inputError blockNumber)
  else
    Except.ok { toAddress := toAddress, data := encodeTxData methodSignature args,
                blockNumber := blockNumber }

/-! ### Specification vocabulary for the merge loop -/

/-- A log that the merge loop of `getBlocks` accepts against `blocks`:
its `blockNumber` parses, the index `parseInt16(log.blockNumber) - fromBlock`
hits an existing block, and the hashes agree. -/
def goodLog (fromBlock : Int) (blocks : List Block) (log : Log) : Bool :=
  match parseInt16 log.blockNumber with
  | none => false
  | some n =>
      decide (0 ≤ n - fromBlock) &&
        (match blocks[(n - fromBlock).toNat]? with
         | some b => log.blockHash == b.hash
         | none => false)

/-- The sublist of `ls`, in arrival order, whose parsed block number is
`fromBlock + i`, i.e. the logs destined for the block at index `i`. -/
def logsFor (fromBlock : Int) (i : Nat) (ls : List Log) : List Log :=
  ls.filter (fun log => parseInt16 log.blockNumber == some (fromBlock + (i : Int)))

/-- Append `new` to a block's `logs`, creating the array when `new` is
nonempty and the field is absent; with `new = []` the block is untouched. -/
def addLogs (b : Block) (new : List Log) : Block :=
  match new with
  | [] => b
  | _ => { b with logs := some (b.logs.getD [] ++ new) }

/-! ### Concrete fixtures used by the witness theorems -/

/-- Mocked block 10 (`0xa`) with an opaque extra field. -/
def wRaw10 : RawBlock :=
  { number := "0xa", timestamp := "0x5f5e100", hash := "hashA", rest := [("miner", "m1")] }

/-- Mocked block 11 (`0xb`). -/
def wRaw11 : RawBlock :=
  { number := "0xb", timestamp := "0x2", hash := "hashB", rest := [] }

/-- A log belonging to block 10, hash consistent. -/
def wLogA : Log := { blockNumber := "0xa", blockHash := "hashA", rest := [("topic", "t0")] }

/-- A log belonging to block 11, hash consistent. -/
def wLogB : Log := { blockNumber := "0xb", blockHash := "hashB", rest := [] }

/-- A second log belonging to block 10, hash consistent. -/
def wLogA2 : Log := { blockNumber := "0xa", blockHash := "hashA", rest := [("topic", "t1")] }

/-- A log claiming block 10 but carrying a wrong block hash. -/
def wLogBad : Log := { blockNumber := "0xa", blockHash := "WRONG", rest := [] }

/-- A log whose block number 5 is outside the requested range `[10, 12)`. -/
def wLogOut : Log := { blockNumber := "0x5", blockHash := "hashX", rest := [] }

/-- Transport answering `getBlocks(10, 12)` in submission order with
two consistent blocks and three consistent logs. -/
def wTransport : Transport := fun _ =>
  [RpcResult.block wRaw10, RpcResult.block wRaw11,
   RpcResult.logs [wLogA, wLogB, wLogA2]]

/-- Transport answering `getBlocks(10, 11)` with one block and two logs. -/
def wTransportOne : Transport := fun _ =>
  [RpcResult.block wRaw10, RpcResult.logs [wLogA, wLogA2]]

/-- Transport whose logs answer contains a hash-mismatching log. -/
def wTransportBad : Transport := fun _ =>
  [RpcResult.block wRaw10, RpcResult.block wRaw11, RpcResult.logs [wLogBad]]

/-- Transport whose logs answer contains an out-of-range log. -/
def wTransportOut : Transport := fun _ =>
  [RpcResult.block wRaw10, RpcResult.block wRaw11, RpcResult.logs [wLogOut]]

/-- Mocked block 7 (`0x7`) for the array-mode operation. -/
def wRawM : RawBlock :=
  { number := "0x7", timestamp := "0x1", hash := "hashM", rest := [("extra", "e")] }

/-- A log paired with block 7 whose hash does NOT match `wRawM.hash`. -/
def wLogM : Log := { blockNumber := "0x7", blockHash := "MISMATCH", rest := [] }

/-- Transport answering `getBlocksFromArray([7])` with a block/logs pair
whose hashes disagree. -/
def wTransportArr : Transport := fun _ =>
  [RpcResult.block wRawM, RpcResult.logs [wLogM]]

lemma addLogs_nil (b : Block) : addLogs b [] = b := rfl

lemma addLogs_hash (b : Block) (new : List Log) : (addLogs b new).hash = b.hash := by
  cases new <;> rfl

lemma addLogs_number (b : Block) (new : List Log) : (addLogs b new).number = b.number := by
  cases new <;> rfl

lemma addLogs_timestamp (b : Block) (new : List Log) :
    (addLogs b new).timestamp = b.timestamp := by
  cases new <;> rfl

lemma addLogs_rest (b : Block) (new : List Log) : (addLogs b new).rest = b.rest := by
  cases new <;> rfl

lemma addLogs_logs_getD (b : Block) (new : List Log) :
    (addLogs b new).logs.getD [] = b.logs.getD [] ++ new := by
  cases new with
  | nil => simp [addLogs]
  | cons y ys => simp [addLogs]

lemma addLogs_addLogs (b : Block) (x : Log) (new : List Log) :
    addLogs (addLogs b [x]) new = addLogs b (x :: new) := by
  cases new with
  | nil => rfl
  | cons y ys => simp [addLogs]

/-! ### Lemmas about the merge loop -/

lemma goodLog_eq_true_iff (fromBlock : Int) (blocks : List Block) (log : Log) :
    goodLog fromBlock blocks log = true ↔
      ∃ n b, parseInt16 log.blockNumber = some n ∧ 0 ≤ n - fromBlock ∧
        blocks[(n - fromBlock).toNat]? = some b ∧ log.blockHash = b.hash := by
  unfold goodLog
  cases hp : parseInt16 log.blockNumber with
  | none => simp
  | some n =>
      cases hb : blocks[(n - fromBlock).toNat]? with
      | none => simp [hb]
      | some b => simp [hb, beq_iff_eq]

lemma applyLog_ok_char (fromBlock : Int) (blocks : List Block) (log : Log)
    (n : Int) (j : Nat) (b : Block)
    (hp : parseInt16 log.blockNumber = some n)
    (hj : n - fromBlock = (j : Int))
    (hb : blocks[j]? = some b)
    (hh : log.blockHash = b.hash) :
    applyLog fromBlock blocks log = Except.ok (blocks.set j (addLogs b [log])) := by
  have h0 : ¬ n - fromBlock < 0 := by rw [hj]; exact not_lt.2 (Int.natCast_nonneg j)
  have hjj : (n - fromBlock).toNat = j := by rw [hj]; exact Int.toNat_natCast j
  simp only [applyLog, hp, if_neg h0, hjj, hb, hh, ne_eq, not_true_eq_false, if_false,
    ite_false]
  rfl

lemma applyLog_ok_shape {fromBlock : Int} {blocks : List Block} {log : Log}
    {r : List Block} (h : applyLog fromBlock blocks log = Except.ok r) :
    ∃ (n : Int) (j : Nat) (b : Block),
      parseInt16 log.blockNumber = some n ∧ n - fromBlock = (j : Int) ∧
      blocks[j]? = some b ∧ log.blockHash = b.hash ∧
      r = blocks.set j (addLogs b [log]) := by
  cases hp : parseInt16 log.blockNumber with
  | none => simp only [applyLog, hp] at h; cases h
  | some n =>
      by_cases h0 : n - fromBlock < 0
      · simp only [applyLog, hp, if_pos h0] at h; cases h
      · simp only [applyLog, hp, if_neg h0] at h
        cases hb : blocks[(n - fromBlock).toNat]? with
        | none => simp only [hb] at h; cases h
        | some b =>
            simp only [hb] at h
            by_cases hh : log.blockHash ≠ b.hash
            · rw [if_pos hh] at h; cases h
            · rw [if_neg hh] at h
              refine ⟨n, (n - fromBlock).toNat, b, rfl,
                (Int.toNat_of_nonneg (not_lt.1 h0)).symm, hb, not_not.1 hh, ?_⟩
              cases h
              rfl

lemma goodLog_set_addLogs (fromBlock : Int) (blocks : List Block) (j : Nat)
    (b : Block) (x : List Log) (log' : Log) (hb : blocks[j]? = some b) :
    goodLog fromBlock (blocks.set j (addLogs b x)) log' =
      goodLog fromBlock blocks log' := by
  cases hp : parseInt16 log'.blockNumber with
  | none => simp only [goodLog, hp]
  | some m =>
      simp only [goodLog, hp]
      congr 1
      by_cases hk : (m - fromBlock).toNat = j
      · have hlt : j < blocks.length := (List.getElem?_eq_some_iff.1 hb).1
        have h1 : (blocks.set j (addLogs b x))[(m - fromBlock).toNat]? =
            some (addLogs b x) := by
          rw [hk]; exact List.getElem?_set_self hlt
        have h2 : blocks[(m - fromBlock).toNat]? = some b := by rw [hk]; exact hb
        rw [h1, h2]
        simp only [addLogs_hash]
      · rw [List.getElem?_set_ne (fun hj => hk hj.symm)]

lemma mergeLogs_cons_ok {fromBlock : Int} {blocks blocks' : List Block} {log : Log}
    (rest : List Log) (h : applyLog fromBlock blocks log = Except.ok blocks') :
    mergeLogs fromBlock blocks (log :: rest) = mergeLogs fromBlock blocks' rest := by
  simp only [mergeLogs, h]
  rfl

lemma mergeLogs_cons_err {fromBlock : Int} {blocks : List Block} {log : Log}
    {e : EthError} (rest : List Log)
    (h : applyLog fromBlock blocks log = Except.error e) :
    mergeLogs fromBlock blocks (log :: rest) = Except.error e := by
  simp only [mergeLogs, h]
  rfl

lemma logsFor_nil (fromBlock : Int) (i : Nat) : logsFor fromBlock i [] = [] := rfl

lemma logsFor_cons_eq (fromBlock : Int) (i : Nat) (log : Log) (ls : List Log)
    (h : parseInt16 log.blockNumber = some (fromBlock + (i : Int))) :
    logsFor fromBlock i (log :: ls) = log :: logsFor fromBlock i ls := by
  simp [logsFor, List.filter_cons, h]

lemma logsFor_cons_ne (fromBlock : Int) (i : Nat) (log : Log) (ls : List Log)
    (h : parseInt16 log.blockNumber ≠ some (fromBlock + (i : Int))) :
    logsFor fromBlock i (log :: ls) = logsFor fromBlock i ls := by
  simp [logsFor, List.filter_cons, h]

/-- Success characterization of the `logs.forEach` loop: when every log
is accepted against `blocks`, the loop succeeds and each block receives
exactly the logs whose parsed block number points at it, in arrival
order. -/
lemma mergeLogs_ok_char (fromBlock : Int) (ls : List Log) :
    ∀ blocks : List Block,
      (∀ log ∈ ls, goodLog fromBlock blocks log = true) →
      ∃ res, mergeLogs fromBlock blocks ls = Except.ok res ∧
        res.length = blocks.length ∧
        ∀ i b, blocks[i]? = some b →
          res[i]? = some (addLogs b (logsFor fromBlock i ls)) := by
  induction ls with
  | nil =>
      intro blocks _
      exact ⟨blocks, rfl, rfl, fun i b hb => by simpa [logsFor_nil] using hb⟩
  | cons log rest ih =>
      intro blocks hgood
      obtain ⟨n, b, hp, h0, hb', hh⟩ :=
        (goodLog_eq_true_iff fromBlock blocks log).1
          (hgood log (List.mem_cons_self _ _))
      have hj : n - fromBlock = ((n - fromBlock).toNat : Int) :=
        (Int.toNat_of_nonneg h0).symm
      have hn : n = fromBlock + ((n - fromBlock).toNat : Int) := by omega
      have happ : applyLog fromBlock blocks log =
          Except.ok (blocks.set (n - fromBlock).toNat (addLogs b [log])) :=
        applyLog_ok_char fromBlock blocks log n (n - fromBlock).toNat b hp hj hb' hh
      have hgood' : ∀ log' ∈ rest,
          goodLog fromBlock (blocks.set (n - fromBlock).toNat (addLogs b [log])) log' =
            true := by
        intro log' hm
        rw [goodLog_set_addLogs fromBlock blocks (n - fromBlock).toNat b [log] log' hb']
        exact hgood log' (List.mem_cons_of_mem _ hm)
      obtain ⟨res, hres, hlen, hget⟩ :=
        ih (blocks.set (n - fromBlock).toNat (addLogs b [log])) hgood'
      refine ⟨res, ?_, ?_, ?_⟩
      · rw [mergeLogs_cons_ok rest happ, hres]
      · rw [hlen, List.length_set]
      · intro i b0 hb0
        by_cases hij : i = (n - fromBlock).toNat
        · have hni : n = fromBlock + (i : Int) := by rw [hij]; omega
          have hb0b : b0 = b := by
            rw [hij, hb'] at hb0
            exact (Option.some_inj.1 hb0).symm
          have hlt : (n - fromBlock).toNat < blocks.length :=
            (List.getElem?_eq_some_iff.1 hb').1
          rw [logsFor_cons_eq fromBlock i log rest (by rw [hp, hni]), hb0b,
            ← addLogs_addLogs]
          exact hget i (addLogs b [log])
            (by rw [hij]; exact List.getElem?_set_self hlt)
        · rw [logsFor_cons_ne fromBlock i log rest (by
            rw [hp]
            intro hcon
            have hni : n = fromBlock + (i : Int) := Option.some_inj.1 hcon
            exact hij (by omega))]
          refine hget i b0 ?_
          rw [List.getElem?_set_ne (fun hj' => hij hj'.symm)]
          exact hb0

/-- Failure of the `logs.forEach` loop: one bad log anywhere in the
list makes the whole loop (and hence `getBlocks`) fail. -/
lemma mergeLogs_err_of_badLog (fromBlock : Int) (ls : List Log) :
    ∀ (blocks : List Block) (log : Log), log ∈ ls →
      goodLog fromBlock blocks log = false →
      ∃ e, mergeLogs fromBlock blocks ls = Except.error e := by
  induction ls with
  | nil => intro blocks log hm _; cases hm
  | cons x rest ih =>
      intro blocks log hm hbad
      cases hax : applyLog fromBlock blocks x with
      | error e => exact ⟨e, mergeLogs_cons_err rest hax⟩
      | ok blocks' =>
          obtain ⟨n, j, b, hp, hj, hb, hh, hshape⟩ := applyLog_ok_shape hax
          have hgx : goodLog fromBlock blocks x = true := by
            rw [goodLog_eq_true_iff]
            refine ⟨n, b, hp, by omega, ?_, hh⟩
            have : (n - fromBlock).toNat = j := by omega
            rw [this]; exact hb
          rcases List.mem_cons.1 hm with rfl | hm'
          · rw [hgx] at hbad; cases hbad
          · have hbad' : goodLog fromBlock blocks' log = false := by
              rw [hshape, goodLog_set_addLogs fromBlock blocks j b [x] log hb]
              exact hbad
            obtain ⟨e, he⟩ := ih blocks' log hm' hbad'
            exact ⟨e, by rw [mergeLogs_cons_ok rest hax, he]⟩

/-! ### Lemmas about response decoding -/

lemma decodeRawBlocks_map (bs : List RawBlock) :
    decodeRawBlocks (bs.map RpcResult.block) = Except.ok bs := by
  induction bs with
  | nil => rfl
  | cons b rest ih =>
      simp only [List.map_cons, decodeRawBlocks, toRawBlock, ih]
      rfl

/-- Response processing of `getBlocks` on a well-shaped batch answer
(`N` block results followed by one logs result) reduces to the merge
loop over the normalized blocks. -/
lemma processResponses_eq (fromBlock : Int) (bs : List RawBlock) (ls : List Log) :
    processResponses fromBlock (bs.map RpcResult.block ++ [RpcResult.logs ls]) =
      mergeLogs fromBlock (bs.map normalizeBlock) ls := by
  unfold processResponses
  rw [List.dropLast_concat, List.getLast?_concat, decodeRawBlocks_map]
  rfl

lemma getBlocks_eq_mergeLogs (fromBlock toBlock : Int) (transport : Transport)
    (bs : List RawBlock) (ls : List Log)
    (hresp : transport (getBlocksBatch fromBlock toBlock) =
      bs.map RpcResult.block ++ [RpcResult.logs ls]) :
    getBlocks fromBlock toBlock transport =
      mergeLogs fromBlock (bs.map normalizeBlock) ls := by
  unfold getBlocks
  rw [hresp, processResponses_eq]

lemma getBlocksFromArrayBatch_cons (bn : Int) (rest : List Int) :
    getBlocksFromArrayBatch (bn :: rest) =
      Request.getBlockByNumber ("0x" ++ intToHex bn) true ::
        Request.getLogs (formatLogOptions bn bn) :: getBlocksFromArrayBatch rest := rfl

/-- The pair-consuming loop of `getBlocksFromArray` on a well-shaped
interleaved batch answer: it never fails and returns one block per
pair, with the paired logs assigned wholesale. -/
lemma consumePairs_interleave (pairs : List (RawBlock × List Log)) :
    consumePairs
        ((pairs.map (fun p => [RpcResult.block p.1, RpcResult.logs p.2])).flatten) =
      Except.ok (pairs.map (fun p =>
        { number := parseInt16 p.1.number, timestamp := parseInt16 p.1.timestamp,
          hash := p.1.hash, logs := some p.2, rest := p.1.rest })) := by
  induction pairs with
  | nil => rfl
  | cons p ps ih =>
      simp [consumePairs, toRawBlock, toLogs, ih]
      rfl

/-! ### Helper lemmas for reconstructing small concrete lists -/

lemma list_eq_single_of_getElem? {α : Type} (l : List α) (a : α)
    (hlen : l.length = 1) (h0 : l[0]? = some a) : l = [a] := by
  match l, hlen with
  | [x], _ =>
      have : x = a := by simpa using h0
      rw [this]

lemma list_eq_pair_of_getElem? {α : Type} (l : List α) (a b : α)
    (hlen : l.length = 2) (h0 : l[0]? = some a) (h1 : l[1]? = some b) :
    l = [a, b] := by
  match l, hlen with
  | [x, y], _ =>
      have hx : x = a := by simpa using h0
      have hy : y = b := by simpa using h1
      rw [hx, hy]

/-! ### Claim theorems -/

/-- C2: for every `fromBlock ≤ toBlock`, the batch built by `getBlocks`
holds exactly `(toBlock - fromBlock) + 1` requests: for each `i` with
`fromBlock + i < toBlock` the `i`-th request is `eth_getBlockByNumber`
for `fromBlock + i` asking for full transaction objects, and the last
request (at position `toBlock - fromBlock`) is the single `eth_getLogs`
request whose options are the inclusive range `fromBlock .. toBlock - 1`. -/
theorem getBlocksBatch_shape (fromBlock toBlock : Int) (hle : fromBlock ≤ toBlock) :
    (getBlocksBatch fromBlock toBlock).length = (toBlock - fromBlock).toNat + 1 ∧
    (∀ i : Nat, (i : Int) < toBlock - fromBlock →
      (getBlocksBatch fromBlock toBlock)[i]? =
        some (Request.getBlockByNumber ("0x" ++ intToHex (fromBlock + (i : Int))) true)) ∧
    (getBlocksBatch fromBlock toBlock)[(toBlock - fromBlock).toNat]? =
      some (Request.getLogs
        { fromBlock := "0x" ++ intToHex fromBlock,
          toBlock := "0x" ++ intToHex (toBlock - 1) }) := by
  refine ⟨?_, ?_, ?_⟩
  · simp only [getBlocksBatch, List.length_append, List.length_map, List.length_range,
      List.length_singleton]
  · intro i hi
    have hiN : i < (toBlock - fromBlock).toNat := by omega
    rw [getBlocksBatch,
      List.getElem?_append_left
        (by simp only [List.length_map, List.length_range]; exact hiN),
      List.getElem?_map, List.getElem?_range hiN]
    exact rfl
  · rw [getBlocksBatch,
      List.getElem?_append_right
        (by simp only [List.length_map, List.length_range]; exact Nat.le_refl _)]
    simp only [List.length_map, List.length_range, Nat.sub_self]
    exact rfl

/-- Witness for C2 at `fromBlock = 1`, `toBlock = 3`. -/
theorem getBlocksBatch_shape_witness :
    (getBlocksBatch 1 3).length = 3 ∧
    (getBlocksBatch 1 3)[0]? = some (Request.getBlockByNumber "0x1" true) ∧
    (getBlocksBatch 1 3)[1]? = some (Request.getBlockByNumber "0x2" true) ∧
    (getBlocksBatch 1 3)[2]? =
      some (Request.getLogs { fromBlock := "0x1", toBlock := "0x2" }) := by
  obtain ⟨h1, h2, h3⟩ := getBlocksBatch_shape 1 3 (by decide)
  exact ⟨h1, (h2 0 (by decide)).trans (by decide),
    (h2 1 (by decide)).trans (by decide), h3.trans (by decide)⟩

/-- C5: the batch built by `getBlocksFromArray` holds exactly `2 n`
requests for `n` input block numbers, in pairs: request `2k` asks for
block `blockNumbers[k]` with full transaction objects, request `2k + 1`
is a logs request scoped exactly to that single block number. -/
theorem getBlocksFromArrayBatch_shape (blockNumbers : List Int) :
    (getBlocksFromArrayBatch blockNumbers).length = 2 * blockNumbers.length ∧
    ∀ (k : Nat) (bn : Int), blockNumbers[k]? = some bn →
      (getBlocksFromArrayBatch blockNumbers)[2 * k]? =
        some (Request.getBlockByNumber ("0x" ++ intToHex bn) true) ∧
      (getBlocksFromArrayBatch blockNumbers)[2 * k + 1]? =
        some (Request.getLogs
          { fromBlock := "0x" ++ intToHex bn, toBlock := "0x" ++ intToHex bn }) := by
  induction blockNumbers with
  | nil =>
      refine ⟨rfl, ?_⟩
      intro k bn h
      simp at h
  | cons bn0 rest ih =>
      obtain ⟨ihlen, ihget⟩ := ih
      constructor
      · rw [getBlocksFromArrayBatch_cons]
        simp only [List.length_cons, ihlen]
        omega
      · intro k bn h
        match k with
        | 0 =>
            have hbn : bn0 = bn := by simpa using h
            subst hbn
            rw [getBlocksFromArrayBatch_cons]
            constructor
            · exact rfl
            · rw [List.getElem?_cons_succ, Nat.mul_zero, List.getElem?_cons_zero]
              exact rfl
        | (k' + 1) =>
            have h' : rest[k']? = some bn := by simpa using h
            have e1 : 2 * (k' + 1) = 2 * k' + 1 + 1 := by omega
            have e2 : 2 * (k' + 1) + 1 = (2 * k' + 1) + 1 + 1 := by omega
            rw [getBlocksFromArrayBatch_cons]
            constructor
            · rw [e1, List.getElem?_cons_succ, List.getElem?_cons_succ]
              exact (ihget k' bn h').1
            · rw [e2, List.getElem?_cons_succ, List.getElem?_cons_succ]
              exact (ihget k' bn h').2

/-- Witness for C5 at `blockNumbers = [5, 9]`: exactly 4 requests in
order block(5), logs(5), block(9), logs(9). -/
theorem getBlocksFromArrayBatch_shape_witness :
    (getBlocksFromArrayBatch [5, 9]).length = 4 ∧
    (getBlocksFromArrayBatch [5, 9])[0]? =
      some (Request.getBlockByNumber "0x5" true) ∧
    (getBlocksFromArrayBatch [5, 9])[1]? =
      some (Request.getLogs { fromBlock := "0x5", toBlock := "0x5" }) ∧
    (getBlocksFromArrayBatch [5, 9])[2]? =
      some (Request.getBlockByNumber "0x9" true) ∧
    (getBlocksFromArrayBatch [5, 9])[3]? =
      some (Request.getLogs { fromBlock := "0x9", toBlock := "0x9" }) := by
  obtain ⟨h1, h2⟩ := getBlocksFromArrayBatch_shape [5, 9]
  obtain ⟨h3, h4⟩ := h2 0 5 rfl
  obtain ⟨h5, h6⟩ := h2 1 9 rfl
  exact ⟨h1, h3.trans (by decide), h4.trans (by decide),
    h5.trans (by decide), h6.trans (by decide)⟩

/-- C6: on a batch answer of `2 n` ordered results, `getBlocksFromArray`
consumes responses in strict pairs (response `2k` the block, `2k + 1` its
logs), returns one block per input number in input order, assigns each
block's full logs list from its paired response, and performs no
hash-consistency check: no hypothesis relates `blockHash` to the block's
`hash`, so a mismatch never causes a rejection. -/
theorem getBlocksFromArray_pairs (blockNumbers : List Int) (transport : Transport)
    (pairs : List (RawBlock × List Log))
    (hlen : pairs.length = blockNumbers.length)
    (hresp : transport (getBlocksFromArrayBatch blockNumbers) =
      (pairs.map (fun p => [RpcResult.block p.1, RpcResult.logs p.2])).flatten) :
    ∃ res, getBlocksFromArray blockNumbers transport = Except.ok res ∧
      res.length = blockNumbers.length ∧
      ∀ (k : Nat) (p : RawBlock × List Log), pairs[k]? = some p →
        res[k]? = some { number := parseInt16 p.1.number,
                         timestamp := parseInt16 p.1.timestamp,
                         hash := p.1.hash, logs := some p.2, rest := p.1.rest } := by
  refine ⟨pairs.map (fun p =>
    { number := parseInt16 p.1.number, timestamp := parseInt16 p.1.timestamp,
      hash := p.1.hash, logs := some p.2, rest := p.1.rest }), ?_, ?_, ?_⟩
  · unfold getBlocksFromArray
    rw [hresp]
    exact consumePairs_interleave pairs
  · rw [List.length_map, hlen]
  · intro k p hk
    rw [List.getElem?_map, hk]
    rfl

/-- Witness for C6: a single pair whose log hash (`MISMATCH`) disagrees
with the block hash (`hashM`); the call still succeeds and the logs are
assigned wholesale. -/
theorem getBlocksFromArray_pairs_witness :
    getBlocksFromArray [7] wTransportArr =
      Except.ok [{ number := some 7, timestamp := some 1, hash := "hashM",
                   logs := some [wLogM], rest := [("extra", "e")] }] := by
  obtain ⟨res, hok, hlen, hget⟩ :=
    getBlocksFromArray_pairs [7] wTransportArr [(wRawM, [wLogM])] rfl rfl
  have h0 := hget 0 (wRawM, [wLogM]) rfl
  rw [hok]
  rw [list_eq_single_of_getElem? res _ hlen h0]
  exact congrArg Except.ok (by decide)

/-- C7: a `call` whose `blockNumber` argument is neither `'latest'` nor a
valid hexadecimal string is rejected immediately: the guard throws before
any RPC request value is built, so no request is issued. -/
theorem call_rejects_non_hex (encodeTxData : String → List String → String)
    (methodSignature toAddress : String) (args : List String) (blockNumber : String)
    (h1 : blockNumber ≠ "latest") (h2 : isHex blockNumber = false) :
    call encodeTxData methodSignature toAddress args blockNumber =
      Except.error (EthError.inputError blockNumber) := by
  simp [call, h1, h2]

/-- Witness for C7 at `blockNumber = "zzz"`. -/
theorem call_rejects_non_hex_witness :
    call (fun _ _ => "0xdata") "mint(uint256)" "0xdead" [] "zzz" =
      Except.error (EthError.inputError "zzz") :=
  call_rejects_non_hex (fun _ _ => "0xdata") "mint(uint256)" "0xdead" [] "zzz"
    (by decide) (by decide)

/-- C9: `getBlocks` is deterministic: two invocations with the same
arguments whose transports give structurally identical answers to the
submitted batch yield structurally identical results; there is no hidden
mutable state in the model. -/
theorem getBlocks_deterministic (fromBlock toBlock : Int) (t1 t2 : Transport)
    (h : t1 (getBlocksBatch fromBlock toBlock) = t2 (getBlocksBatch fromBlock toBlock)) :
    getBlocks fromBlock toBlock t1 = getBlocks fromBlock toBlock t2 := by
  unfold getBlocks
  rw [h]

/-- Witness for C9: repeating `getBlocks(10, 12)` against two
structurally identical mocked transports. -/
theorem getBlocks_deterministic_witness :
    getBlocks 10 12 wTransport =
      getBlocks 10 12 (fun _ =>
        [RpcResult.block wRaw10, RpcResult.block wRaw11,
         RpcResult.logs [wLogA, wLogB, wLogA2]]) :=
  getBlocks_deterministic 10 12 wTransport
    (fun _ =>
      [RpcResult.block wRaw10, RpcResult.block wRaw11,
       RpcResult.logs [wLogA, wLogB, wLogA2]]) rfl

/-- C1: for non-negative `fromBlock ≤ toBlock`, against a transport that
answers each request of the batch in submission order (the `i`-th block
request with a block whose number parses to `fromBlock + i`, the final
logs request with logs consistent with those blocks), `getBlocks`
returns exactly `toBlock - fromBlock` blocks, ordered by ascending block
number starting at `fromBlock` (the empty result when
`fromBlock = toBlock`). -/
theorem getBlocks_returns_range (fromBlock toBlock : Int) (transport : Transport)
    (bs : List RawBlock) (ls : List Log)
    (_hnn : 0 ≤ fromBlock) (_hle : fromBlock ≤ toBlock)
    (hresp : transport (getBlocksBatch fromBlock toBlock) =
      bs.map RpcResult.block ++ [RpcResult.logs ls])
    (hlen : bs.length = (toBlock - fromBlock).toNat)
    (hnum : ∀ (i : Nat) (braw : RawBlock), bs[i]? = some braw →
      parseInt16 braw.number = some (fromBlock + (i : Int)))
    (hgood : ∀ log ∈ ls, goodLog fromBlock (bs.map normalizeBlock) log = true) :
    ∃ res, getBlocks fromBlock toBlock transport = Except.ok res ∧
      res.length = (toBlock - fromBlock).toNat ∧
      ∀ (i : Nat) (b : Block), res[i]? = some b →
        b.number = some (fromBlock + (i : Int)) := by
  obtain ⟨res, hm, hrlen, hget⟩ :=
    mergeLogs_ok_char fromBlock ls (bs.map normalizeBlock) hgood
  refine ⟨res, ?_, ?_, ?_⟩
  · rw [getBlocks_eq_mergeLogs fromBlock toBlock transport bs ls hresp]
    exact hm
  · rw [hrlen, List.length_map]
    exact hlen
  · intro i b hib
    have hi : i < res.length := (List.getElem?_eq_some_iff.1 hib).1
    have hib2 : i < bs.length := by
      rw [hrlen, List.length_map] at hi
      exact hi
    have hbraw : bs[i]? = some bs[i] := List.getElem?_eq_some_iff.2 ⟨hib2, rfl⟩
    have hmapb : (bs.map normalizeBlock)[i]? = some (normalizeBlock bs[i]) := by
      rw [List.getElem?_map, hbraw]
      exact rfl
    have hri := hget i (normalizeBlock bs[i]) hmapb
    rw [hri] at hib
    have hbv : b = addLogs (normalizeBlock bs[i]) (logsFor fromBlock i ls) :=
      (Option.some_inj.1 hib).symm
    rw [hbv, addLogs_number]
    exact hnum i bs[i] hbraw

/-- Witness for C1: `getBlocks(10, 12)` against `wTransport` yields two
blocks numbered 10 and 11. -/
theorem getBlocks_returns_range_witness :
    (getBlocks 10 12 wTransport).toOption.map (List.map Block.number) =
      some [some 10, some 11] := by
  obtain ⟨res, hok, hlen, hnum⟩ :=
    getBlocks_returns_range 10 12 wTransport [wRaw10, wRaw11]
      [wLogA, wLogB, wLogA2] (by decide) (by decide) rfl (by decide)
      (by
        intro i braw h
        match i with
        | 0 =>
            have hb : wRaw10 = braw := by simpa using h
            rw [← hb]
            decide
        | 1 =>
            have hb : wRaw11 = braw := by simpa using h
            rw [← hb]
            decide
        | (k + 2) => simp at h)
      (by decide)
  obtain ⟨b0, hb0⟩ : ∃ b0, res[0]? = some b0 :=
    ⟨res.get ⟨0, by omega⟩, List.getElem?_eq_some_iff.2 ⟨by omega, rfl⟩⟩
  obtain ⟨b1, hb1⟩ : ∃ b1, res[1]? = some b1 :=
    ⟨res.get ⟨1, by omega⟩, List.getElem?_eq_some_iff.2 ⟨by omega, rfl⟩⟩
  rw [hok, list_eq_pair_of_getElem? res b0 b1 (by rw [hlen]; decide) hb0 hb1]
  have h0 := hnum 0 b0 hb0
  have h1 := hnum 1 b1 hb1
  show some [b0.number, b1.number] = some [some 10, some 11]
  rw [h0, h1]
  exact rfl

/-- C3: if some log returned by the transport carries a `blockHash`
different from the `hash` of the block found at index
`parseInt16(log.blockNumber) - fromBlock`, `getBlocks` rejects: it
evaluates to an error and produces no (partial) block list. -/
theorem getBlocks_hash_mismatch_rejects (fromBlock toBlock : Int)
    (transport : Transport) (bs : List RawBlock) (ls : List Log)
    (log : Log) (n : Int) (b : Block)
    (hresp : transport (getBlocksBatch fromBlock toBlock) =
      bs.map RpcResult.block ++ [RpcResult.logs ls])
    (hmem : log ∈ ls)
    (hp : parseInt16 log.blockNumber = some n)
    (_h0 : 0 ≤ n - fromBlock)
    (hb : (bs.map normalizeBlock)[(n - fromBlock).toNat]? = some b)
    (hne : log.blockHash ≠ b.hash) :
    ∃ e, getBlocks fromBlock toBlock transport = Except.error e := by
  have hbad : goodLog fromBlock (bs.map normalizeBlock) log = false := by
    simp only [goodLog, hp, hb]
    simp [hne]
  obtain ⟨e, he⟩ :=
    mergeLogs_err_of_badLog fromBlock ls (bs.map normalizeBlock) log hmem hbad
  exact ⟨e, by
    rw [getBlocks_eq_mergeLogs fromBlock toBlock transport bs ls hresp]
    exact he⟩

/-- Witness for C3: a mocked response whose single log claims block 10
with hash `WRONG`; the whole call fails with no result. -/
theorem getBlocks_hash_mismatch_rejects_witness :
    (getBlocks 10 12 wTransportBad).toOption = none := by
  obtain ⟨e, he⟩ :=
    getBlocks_hash_mismatch_rejects 10 12 wTransportBad [wRaw10, wRaw11]
      [wLogBad] wLogBad 10 (normalizeBlock wRaw10) rfl (by decide) (by decide)
      (by decide) (by decide) (by decide)
  rw [he]
  exact rfl

/-- C4: when every log returned by the transport has its block number in
range and a matching block hash, `getBlocks` succeeds and every block's
`logs` holds exactly the arriving logs whose parsed block number points
at it (in arrival order); the sequence is created only when some log
lands on the block, and a log is appended to no other block. -/
theorem getBlocks_log_distribution (fromBlock toBlock : Int) (transport : Transport)
    (bs : List RawBlock) (ls : List Log)
    (hresp : transport (getBlocksBatch fromBlock toBlock) =
      bs.map RpcResult.block ++ [RpcResult.logs ls])
    (hgood : ∀ log ∈ ls, goodLog fromBlock (bs.map normalizeBlock) log = true) :
    ∃ res, getBlocks fromBlock toBlock transport = Except.ok res ∧
      res.length = bs.length ∧
      ∀ (i : Nat) (b : Block), res[i]? = some b →
        b.logs.getD [] = logsFor fromBlock i ls ∧
        (b.logs = none ↔ logsFor fromBlock i ls = []) := by
  obtain ⟨res, hm, hrlen, hget⟩ :=
    mergeLogs_ok_char fromBlock ls (bs.map normalizeBlock) hgood
  refine ⟨res, ?_, ?_, ?_⟩
  · rw [getBlocks_eq_mergeLogs fromBlock toBlock transport bs ls hresp]
    exact hm
  · rw [hrlen, List.length_map]
  · intro i b hib
    have hi : i < res.length := (List.getElem?_eq_some_iff.1 hib).1
    have hib2 : i < bs.length := by
      rw [hrlen, List.length_map] at hi
      exact hi
    have hbraw : bs[i]? = some bs[i] := List.getElem?_eq_some_iff.2 ⟨hib2, rfl⟩
    have hmapb : (bs.map normalizeBlock)[i]? = some (normalizeBlock bs[i]) := by
      rw [List.getElem?_map, hbraw]
      exact rfl
    have hri := hget i (normalizeBlock bs[i]) hmapb
    rw [hri] at hib
    have hbv : b = addLogs (normalizeBlock bs[i]) (logsFor fromBlock i ls) :=
      (Option.some_inj.1 hib).symm
    constructor
    · rw [hbv, addLogs_logs_getD]
      exact rfl
    · rw [hbv]
      cases hl : logsFor fromBlock i ls with
      | nil => simp [addLogs, normalizeBlock]
      | cons x xs => simp [addLogs]

/-- Witness for C4: `getBlocks(10, 11)` with logs `[wLogA, wLogA2]` both
pointing at block 10; the single block's `logs` is exactly
`[wLogA, wLogA2]` in arrival order. -/
theorem getBlocks_log_distribution_witness :
    (getBlocks 10 11 wTransportOne).toOption.map (List.map Block.logs) =
      some [some [wLogA, wLogA2]] := by
  obtain ⟨res, hok, hlen, hget⟩ :=
    getBlocks_log_distribution 10 11 wTransportOne [wRaw10] [wLogA, wLogA2]
      rfl (by decide)
  have hlt : 0 < res.length := by rw [hlen]; decide
  obtain ⟨b0, hb0⟩ : ∃ b0, res[0]? = some b0 :=
    ⟨res.get ⟨0, hlt⟩, List.getElem?_eq_some_iff.2 ⟨hlt, rfl⟩⟩
  obtain ⟨hlogs, hnone⟩ := hget 0 b0 hb0
  have hbl : b0.logs = some [wLogA, wLogA2] := by
    cases hc : b0.logs with
    | none => exact absurd (hnone.1 hc) (by decide)
    | some L =>
        rw [hc] at hlogs
        simp only [Option.getD_some] at hlogs
        rw [hlogs]
        congr 1
  rw [hok, list_eq_single_of_getElem? res b0 (by rw [hlen]; decide) hb0]
  show some [b0.logs] = some [some [wLogA, wLogA2]]
  rw [hbl]

/-- C10 (implicit): if the transport's logs answer contains a log whose
parsed block number lies outside `[fromBlock, toBlock)` while the block
segment holds exactly `toBlock - fromBlock` blocks, the index
computation selects a position with no block and `getBlocks` fails (the
access to the missing block's hash errors) instead of dropping or
misfiling the log. -/
theorem getBlocks_out_of_range_log_fails (fromBlock toBlock : Int)
    (transport : Transport) (bs : List RawBlock) (ls : List Log)
    (log : Log) (n : Int)
    (_hle : fromBlock ≤ toBlock)
    (hresp : transport (getBlocksBatch fromBlock toBlock) =
      bs.map RpcResult.block ++ [RpcResult.logs ls])
    (hlen : bs.length = (toBlock - fromBlock).toNat)
    (hmem : log ∈ ls)
    (hp : parseInt16 log.blockNumber = some n)
    (hout : n < fromBlock ∨ toBlock ≤ n) :
    ∃ e, getBlocks fromBlock toBlock transport = Except.error e := by
  have hbad : goodLog fromBlock (bs.map normalizeBlock) log = false := by
    rcases hout with h1 | h2
    · have hneg : ¬ 0 ≤ n - fromBlock := by omega
      simp [goodLog, hp, hneg]
    · have hge : (bs.map normalizeBlock).length ≤ (n - fromBlock).toNat := by
        rw [List.length_map, hlen]
        omega
      simp [goodLog, hp, List.getElem?_eq_none hge]
  obtain ⟨e, he⟩ :=
    mergeLogs_err_of_badLog fromBlock ls (bs.map normalizeBlock) log hmem hbad
  exact ⟨e, by
    rw [getBlocks_eq_mergeLogs fromBlock toBlock transport bs ls hresp]
    exact he⟩

/-- Witness for C10: a log for block 5 inside a `getBlocks(10, 12)`
response makes the whole call fail. -/
theorem getBlocks_out_of_range_log_fails_witness :
    (getBlocks 10 12 wTransportOut).toOption = none := by
  obtain ⟨e, he⟩ :=
    getBlocks_out_of_range_log_fails 10 12 wTransportOut [wRaw10, wRaw11]
      [wLogOut] wLogOut 5 (by decide) rfl (by decide) (by decide) (by decide)
      (by decide)
  rw [he]
  exact rfl

/-- C8 (frame): both fetch operations rewrite only `number`, `timestamp`
and `logs` of each returned block (`number`/`timestamp` normalized from
hex, `logs` populated); the block's `hash` and all opaque fields, and
every attached log value, are passed through unchanged. -/
theorem fetch_opaque_fields_pass_through
    (fromBlock toBlock : Int) (t1 : Transport) (bs : List RawBlock) (ls : List Log)
    (hresp1 : t1 (getBlocksBatch fromBlock toBlock) =
      bs.map RpcResult.block ++ [RpcResult.logs ls])
    (hgood : ∀ log ∈ ls, goodLog fromBlock (bs.map normalizeBlock) log = true)
    (blockNumbers : List Int) (t2 : Transport) (pairs : List (RawBlock × List Log))
    (hlen2 : pairs.length = blockNumbers.length)
    (hresp2 : t2 (getBlocksFromArrayBatch blockNumbers) =
      (pairs.map (fun p => [RpcResult.block p.1, RpcResult.logs p.2])).flatten) :
    (∃ res, getBlocks fromBlock toBlock t1 = Except.ok res ∧
      res.length = bs.length ∧
      ∀ (i : Nat) (braw : RawBlock) (b : Block),
        bs[i]? = some braw → res[i]? = some b →
        b.hash = braw.hash ∧ b.rest = braw.rest ∧
        b.number = parseInt16 braw.number ∧
        b.timestamp = parseInt16 braw.timestamp ∧
        ∀ log ∈ b.logs.getD [], log ∈ ls) ∧
    (∃ res2, getBlocksFromArray blockNumbers t2 = Except.ok res2 ∧
      res2.length = pairs.length ∧
      ∀ (k : Nat) (p : RawBlock × List Log) (b : Block),
        pairs[k]? = some p → res2[k]? = some b →
        b.hash = p.1.hash ∧ b.rest = p.1.rest ∧
        b.number = parseInt16 p.1.number ∧
        b.timestamp = parseInt16 p.1.timestamp ∧
        b.logs = some p.2) := by
  constructor
  · obtain ⟨res, hm, hrlen, hget⟩ :=
      mergeLogs_ok_char fromBlock ls (bs.map normalizeBlock) hgood
    refine ⟨res, ?_, ?_, ?_⟩
    · rw [getBlocks_eq_mergeLogs fromBlock toBlock t1 bs ls hresp1]
      exact hm
    · rw [hrlen, List.length_map]
    · intro i braw b hbraw hib
      have hmapb : (bs.map normalizeBlock)[i]? = some (normalizeBlock braw) := by
        rw [List.getElem?_map, hbraw]
        exact rfl
      have hri := hget i (normalizeBlock braw) hmapb
      rw [hri] at hib
      have hbv : b = addLogs (normalizeBlock braw) (logsFor fromBlock i ls) :=
        (Option.some_inj.1 hib).symm
      refine ⟨by rw [hbv, addLogs_hash]; exact rfl, by rw [hbv, addLogs_rest]; exact rfl,
        by rw [hbv, addLogs_number]; exact rfl, by rw [hbv, addLogs_timestamp]; exact rfl, ?_⟩
      intro log hlog
      rw [hbv, addLogs_logs_getD] at hlog
      have : log ∈ logsFor fromBlock i ls := by
        simpa [normalizeBlock] using hlog
      exact List.mem_of_mem_filter this
  · obtain ⟨res2, hok2, hrlen2, hget2⟩ :=
      getBlocksFromArray_pairs blockNumbers t2 pairs hlen2 hresp2
    refine ⟨res2, hok2, ?_, ?_⟩
    · rw [hrlen2, hlen2]
    · intro k p b hk hkb
      have hres2k := hget2 k p hk
      rw [hres2k] at hkb
      have hbv : b = { number := parseInt16 p.1.number,
                       timestamp := parseInt16 p.1.timestamp,
                       hash := p.1.hash, logs := some p.2, rest := p.1.rest } :=
        (Option.some_inj.1 hkb).symm
      rw [hbv]
      exact ⟨rfl, rfl, rfl, rfl, rfl⟩

/-- Witness for C8: the opaque `miner`/`extra` fields and hashes survive
both operations on concrete mocked transports. -/
theorem fetch_opaque_fields_pass_through_witness :
    (getBlocks 10 11 wTransportOne).toOption.map
        (List.map (fun b => (Block.hash b, Block.rest b))) =
      some [("hashA", [("miner", "m1")])] ∧
    (getBlocksFromArray [7] wTransportArr).toOption.map
        (List.map (fun b => (Block.hash b, Block.rest b))) =
      some [("hashM", [("extra", "e")])] := by
  obtain ⟨⟨res, hok, hrlen, hget⟩, ⟨res2, hok2, hrlen2, hget2⟩⟩ :=
    fetch_opaque_fields_pass_through 10 11 wTransportOne [wRaw10]
      [wLogA, wLogA2] rfl (by decide) [7] wTransportArr [(wRawM, [wLogM])]
      rfl rfl
  constructor
  · have hlt : 0 < res.length := by rw [hrlen]; decide
    obtain ⟨b0, hb0⟩ : ∃ b0, res[0]? = some b0 :=
      ⟨res.get ⟨0, hlt⟩, List.getElem?_eq_some_iff.2 ⟨hlt, rfl⟩⟩
    obtain ⟨hh, hr, _, _, _⟩ := hget 0 wRaw10 b0 rfl hb0
    rw [hok, list_eq_single_of_getElem? res b0 (by rw [hrlen]; decide) hb0]
    show some [(b0.hash, b0.rest)] = some [("hashA", [("miner", "m1")])]
    rw [hh, hr]
    exact rfl
  · have hlt2 : 0 < res2.length := by rw [hrlen2]; decide
    obtain ⟨b0, hb0⟩ : ∃ b0, res2[0]? = some b0 :=
      ⟨res2.get ⟨0, hlt2⟩, List.getElem?_eq_some_iff.2 ⟨hlt2, rfl⟩⟩
    obtain ⟨hh, hr, _, _, _⟩ := hget2 0 (wRawM, [wLogM]) b0 rfl hb0
    rw [hok2, list_eq_single_of_getElem? res2 b0 (by rw [hrlen2]; decide) hb0]
    show some [(b0.hash, b0.rest)] = some [("hashM", [("extra", "e")])]
    rw [hh, hr]
    exact rfl

end EthRpc
